import Mathlib

/-!
Shallow embedding of the embedded-temu terminal emulator core
(src/cell.rs, src/color.rs, src/text_buffer.rs, src/console.rs),
with proofs settling the frozen claims about its specification.

Conventions of the embedding:
* Rust `usize` values are modelled as `Nat`.  Wherever the source performs a
  subtraction that cannot underflow under the stated hypotheses, Nat truncated
  subtraction agrees with the machine subtraction; places where the source can
  underflow or divide by zero are noted at the definition.
* `Vec<Vec<Cell>>` is modelled as `List (List Cell)`; an in-bounds index update
  is `List.set` (which, like the checked paths of the source, is a no-op out of
  bounds).
* The `u16` bitflags value of `Flags` is modelled as a `Nat` holding the bit
  pattern; insert is bitwise or, remove is bitwise and with the complement
  inside 16 bits.
-/

namespace EmbeddedTemu

/-- The sixteen named ANSI colors of src/color.rs (`NamedColor`). -/
inductive NamedColor where
  | Black | Red | Green | Yellow | Blue | Magenta | Cyan | White
  | BrightBlack | BrightRed | BrightGreen | BrightYellow
  | BrightBlue | BrightMagenta | BrightCyan | BrightWhite
deriving DecidableEq, Repr

/-- A 24-bit RGB triple, modelling embedded-graphics `Rgb888` as used by
src/color.rs; each channel is a `u8` value. -/
structure Rgb888 where
  r : Nat
  g : Nat
  b : Nat
deriving DecidableEq, Repr

/-- A terminal color: named, direct RGB, or 8-bit indexed (src/color.rs
`Color`). -/
inductive Color where
  | Named (n : NamedColor)
  | RGB (c : Rgb888)
  | Indexed (i : Nat)
deriving DecidableEq, Repr

/-- Bit constants of the `Flags` bitset of src/cell.rs, as the underlying
`u16` patterns. -/
def Flags.INVERSE : Nat := 1
def Flags.BOLD : Nat := 2
def Flags.ITALIC : Nat := 4
def Flags.UNDERLINE : Nat := 8
def Flags.WRAPLINE : Nat := 16
def Flags.WIDE_CHAR : Nat := 32
def Flags.WIDE_CHAR_SPACER : Nat := 64
def Flags.DIM : Nat := 128
def Flags.HIDDEN : Nat := 256
def Flags.STRIKEOUT : Nat := 512
def Flags.LEADING_WIDE_CHAR_SPACER : Nat := 1024
def Flags.DOUBLE_UNDERLINE : Nat := 2048

/-- Insertion into the bitset (`Flags::insert` / `|=`): bitwise or. -/
def Flags.insert (f m : Nat) : Nat := f ||| m

/-- Removal from the bitset (`Flags::remove`): clear the bits of the mask,
i.e. bitwise and with the mask's complement inside 16 bits. -/
def Flags.remove (f m : Nat) : Nat := f &&& (65535 ^^^ m)

/-- A single styled character slot (src/cell.rs `Cell`). -/
structure Cell where
  c : Char
  fg : Color
  bg : Color
  flags : Nat
  dirty : Bool
deriving DecidableEq, Repr

/-- The default cell of src/cell.rs: blank space, bright-white on black, no
flags, dirty. -/
def Cell.default : Cell :=
  { c := ' '
    bg := Color.Named NamedColor.Black
    fg := Color.Named NamedColor.BrightWhite
    flags := 0
    dirty := true }

/-- Return a default cell carrying only this cell's background
(src/cell.rs `Cell::just_bg`). -/
def Cell.just_bg (cell : Cell) : Cell :=
  { Cell.default with bg := cell.bg }

/-- The 2D cell grid of src/text_buffer.rs (`TextBuffer`, used by the console
as its `CellBuffer`): a `height`-row by `width`-column grid plus a logical
row offset used by its circular scroll. -/
structure TextBuffer where
  buf : List (List Cell)
  row_offset : Nat
  width : Nat
  height : Nat
deriving DecidableEq, Repr

namespace TextBuffer

/-- `TextBuffer::new`: all cells default, offset 0. -/
def new (width height : Nat) : TextBuffer :=
  { buf := List.replicate height (List.replicate width Cell.default)
    row_offset := 0
    width := width
    height := height }

/-- `TextBuffer::read`: out of bounds returns the default cell. -/
def read (tb : TextBuffer) (row col : Nat) : Cell :=
  if row ≥ tb.height ∨ col ≥ tb.width then Cell.default
  else ((tb.buf.getD row []).getD col Cell.default)

/-- `TextBuffer::write`: out of bounds is a silent no-op. -/
def write (tb : TextBuffer) (row col : Nat) (cell : Cell) : TextBuffer :=
  if row ≥ tb.height ∨ col ≥ tb.width then tb
  else { tb with buf := tb.buf.set row ((tb.buf.getD row []).set col cell) }

/-- `TextBuffer::clear_line`: write `cell` into columns `0..width` of row
`row` by direct indexing.  The source indexes `self.buf[row][col]` without a
bounds check; for the well-formed buffers considered here (row in bounds,
rows of length `width`) the `List.set`-based loop below coincides with it. -/
def clear_line (tb : TextBuffer) (row : Nat) (cell : Cell) : TextBuffer :=
  { tb with
    buf := tb.buf.set row
      ((List.range tb.width).foldl (fun r col => r.set col cell)
        (tb.buf.getD row [])) }

/-- `TextBuffer::new_line`: clear the row at the current offset, then advance
the offset modulo `height`.  The source's `% self.height()` panics when
`height = 0`; here Nat `% 0` is the identity, and every claim touching
`new_line` assumes `height ≥ 1`. -/
def new_line (tb : TextBuffer) (cell : Cell) : TextBuffer :=
  let tb1 := tb.clear_line tb.row_offset cell
  { tb1 with row_offset := (tb1.row_offset + 1) % tb1.height }

/-- `TextBuffer::clear`: reset the offset and write `cell` everywhere through
the bounds-checked `write`. -/
def clear (tb : TextBuffer) (cell : Cell) : TextBuffer :=
  (List.range tb.height).foldl
    (fun b i => (List.range b.width).foldl (fun b2 j => b2.write i j cell) b)
    { tb with row_offset := 0 }

/-- Well-formedness of a buffer: the shape invariant every buffer produced by
`new` enjoys and every operation preserves (for `height ≥ 1`). -/
def wf (tb : TextBuffer) : Prop :=
  tb.buf.length = tb.height ∧ (∀ r ∈ tb.buf, r.length = tb.width) ∧
    tb.row_offset < tb.height

instance (tb : TextBuffer) : Decidable tb.wf := by
  unfold wf; infer_instance

end TextBuffer

/-- The cursor of src/console.rs: a zero-indexed row/column pair. -/
structure Cursor where
  row : Nat
  col : Nat
deriving DecidableEq, Repr

/-- The default cursor: `(0, 0)` (derived `Default` of the source). -/
def Cursor.default : Cursor := { row := 0, col := 0 }

/-- A graphic-rendition attribute as consumed by
`ConsoleInner::terminal_attribute` in src/console.rs.  The `Attr` type itself
lives in the crate's `ansi` module (not part of the analysed sources); the
constructors below are exactly the variants the console matches on, plus
`Unhandled` standing for every other variant, which the catch-all arm of the
match logs and ignores. -/
inductive Attr where
  | Foreground (color : Color)
  | Background (color : Color)
  | Reset
  | Reverse
  | CancelReverse
  | Bold
  | CancelBold
  | Dim
  | CancelBoldDim
  | Italic
  | CancelItalic
  | Underline
  | CancelUnderline
  | Hidden
  | CancelHidden
  | Strike
  | CancelStrike
  | Unhandled
deriving DecidableEq, Repr

/-- Line clear modes of `ConsoleInner::clear_line` (from the crate's `ansi`
module; the three variants the console matches on). -/
inductive LineClearMode where
  | Right | Left | All
deriving DecidableEq, Repr

/-- Screen clear modes of `ConsoleInner::clear_screen`; `Saved` is the
variant falling into the ignoring catch-all arm. -/
inductive ClearMode where
  | Above | Below | All | Saved
deriving DecidableEq, Repr

/-- The inner console state of src/console.rs (`ConsoleInner`): cursor, saved
cursor, pen template, cell buffer, auto-wrap flag and the device-status
report queue (a `VecDeque<u8>`, modelled as a list with its front at the
head). -/
structure ConsoleInner where
  cursor : Cursor
  saved_cursor : Cursor
  temp : Cell
  buf : TextBuffer
  auto_wrap : Bool
  report : List Nat
deriving DecidableEq, Repr

namespace ConsoleInner

/-- The common tail of `Handler::input`: stamp the pen with the character,
write it at the cursor, advance the column. -/
def putChar (s : ConsoleInner) (c : Char) : ConsoleInner :=
  let temp := { s.temp with c := c }
  { s with
    buf := s.buf.write s.cursor.row s.cursor.col temp
    cursor := { s.cursor with col := s.cursor.col + 1 } }

/-- `Handler::linefeed`: column 0; advance the row when not on the last row,
otherwise scroll the buffer with the pen template as fill.  The guard
`row < height - 1` underflows in the source when `height = 0`; with Nat
subtraction the guard is false there and the scroll branch is taken. -/
def linefeed (s : ConsoleInner) : ConsoleInner :=
  let s1 := { s with cursor := { s.cursor with col := 0 } }
  if s1.cursor.row < s1.buf.height - 1 then
    { s1 with cursor := { s1.cursor with row := s1.cursor.row + 1 } }
  else
    { s1 with buf := s1.buf.new_line s1.temp }

/-- `Handler::input`: at or past the right edge, drop the character when
auto-wrap is off, otherwise wrap (column 0 and linefeed); then stamp the
character and advance. -/
def input (s : ConsoleInner) (c : Char) : ConsoleInner :=
  if s.cursor.col ≥ s.buf.width then
    if s.auto_wrap = false then s
    else (({ s with cursor := { s.cursor with col := 0 } }).linefeed).putChar c
  else s.putChar c

/-- `Handler::goto`: clamp the row to `height` and the column to `width`
(note: not `height - 1` / `width - 1`). -/
def goto (s : ConsoleInner) (row col : Nat) : ConsoleInner :=
  { s with cursor := { row := min row s.buf.height, col := min col s.buf.width } }

/-- `Handler::goto_line`. -/
def goto_line (s : ConsoleInner) (row : Nat) : ConsoleInner :=
  s.goto row s.cursor.col

/-- `Handler::goto_col`. -/
def goto_col (s : ConsoleInner) (col : Nat) : ConsoleInner :=
  s.goto s.cursor.row col

/-- `Handler::move_up`: saturating subtraction on the row, then `goto`. -/
def move_up (s : ConsoleInner) (rows : Nat) : ConsoleInner :=
  s.goto (s.cursor.row - rows) s.cursor.col

/-- `Handler::move_down`: clamp to `height - 1`, then `goto`. -/
def move_down (s : ConsoleInner) (rows : Nat) : ConsoleInner :=
  s.goto (min (s.cursor.row + rows) (s.buf.height - 1)) s.cursor.col

/-- `Handler::move_forward`: clamp the column to `width - 1` directly. -/
def move_forward (s : ConsoleInner) (cols : Nat) : ConsoleInner :=
  { s with cursor := { s.cursor with col := min (s.cursor.col + cols) (s.buf.width - 1) } }

/-- `Handler::move_backward`: saturating subtraction on the column. -/
def move_backward (s : ConsoleInner) (cols : Nat) : ConsoleInner :=
  { s with cursor := { s.cursor with col := s.cursor.col - cols } }

/-- `Handler::backspace`: decrement the column when positive. -/
def backspace (s : ConsoleInner) : ConsoleInner :=
  if s.cursor.col > 0 then
    { s with cursor := { s.cursor with col := s.cursor.col - 1 } }
  else s

/-- `Handler::carriage_return`: column 0. -/
def carriage_return (s : ConsoleInner) : ConsoleInner :=
  { s with cursor := { s.cursor with col := 0 } }

/-- `Handler::save_cursor_position`. -/
def save_cursor_position (s : ConsoleInner) : ConsoleInner :=
  { s with saved_cursor := s.cursor }

/-- `Handler::restore_cursor_position`. -/
def restore_cursor_position (s : ConsoleInner) : ConsoleInner :=
  { s with cursor := s.saved_cursor }

/-- `Handler::delete_chars`: clip the count to `width - col - 1`, then for
each `i` in `col + count .. width` move the cell at `i` left by `count` and
write a background cell at `i`.  The clip underflows in the source when
`col ≥ width`; there the loop is empty either way, so the truncated Nat
subtraction yields the same final state as the release build. -/
def delete_chars (s : ConsoleInner) (count : Nat) : ConsoleInner :=
  let columns := s.buf.width
  let count := min count (columns - s.cursor.col - 1)
  let row := s.cursor.row
  let start := s.cursor.col
  let e := start + count
  let bg := s.temp.just_bg
  { s with
    buf := (List.range' e (columns - e)).foldl
      (fun b i => (b.write row (i - count) (b.read row i)).write row i bg)
      s.buf }

/-- `Handler::clear_line`: fill the selected span of the current row with
background cells. -/
def clear_line (s : ConsoleInner) (mode : LineClearMode) : ConsoleInner :=
  let bg := s.temp.just_bg
  match mode with
  | LineClearMode.Right =>
    { s with
      buf := (List.range' s.cursor.col (s.buf.width - s.cursor.col)).foldl
        (fun b i => b.write s.cursor.row i bg) s.buf }
  | LineClearMode.Left =>
    { s with
      buf := (List.range (s.cursor.col + 1)).foldl
        (fun b i => b.write s.cursor.row i bg) s.buf }
  | LineClearMode.All =>
    { s with
      buf := (List.range s.buf.width).foldl
        (fun b i => b.write s.cursor.row i bg) s.buf }

/-- `Handler::clear_screen`: fill the selected region with background cells;
`All` also clears the buffer and resets the cursor; other modes are ignored. -/
def clear_screen (s : ConsoleInner) (mode : ClearMode) : ConsoleInner :=
  let bg := s.temp.just_bg
  let row := s.cursor.row
  let col := s.cursor.col
  match mode with
  | ClearMode.Above =>
    let b1 := (List.range row).foldl
      (fun b i => (List.range b.width).foldl (fun b2 j => b2.write i j bg) b)
      s.buf
    { s with buf := (List.range col).foldl (fun b j => b.write row j bg) b1 }
  | ClearMode.Below =>
    let b1 := (List.range' col (s.buf.width - col)).foldl
      (fun b j => b.write row j bg) s.buf
    { s with
      buf := (List.range' (row + 1) (s.buf.height - (row + 1))).foldl
        (fun b i => (List.range b.width).foldl (fun b2 j => b2.write i j bg) b)
        b1 }
  | ClearMode.All =>
    { s with buf := s.buf.clear bg, cursor := Cursor.default }
  | ClearMode.Saved => s

/-- `Handler::terminal_attribute`: mutate the pen template according to the
attribute; unrecognized attributes are ignored. -/
def terminal_attribute (s : ConsoleInner) (attr : Attr) : ConsoleInner :=
  match attr with
  | Attr.Foreground color => { s with temp := { s.temp with fg := color } }
  | Attr.Background color => { s with temp := { s.temp with bg := color } }
  | Attr.Reset => { s with temp := Cell.default }
  | Attr.Reverse =>
    { s with temp := { s.temp with flags := Flags.insert s.temp.flags Flags.INVERSE } }
  | Attr.CancelReverse =>
    { s with temp := { s.temp with flags := Flags.remove s.temp.flags Flags.INVERSE } }
  | Attr.Bold =>
    { s with temp := { s.temp with flags := Flags.insert s.temp.flags Flags.BOLD } }
  | Attr.CancelBold =>
    { s with temp := { s.temp with flags := Flags.remove s.temp.flags Flags.BOLD } }
  | Attr.Dim =>
    { s with temp := { s.temp with flags := Flags.insert s.temp.flags Flags.DIM } }
  | Attr.CancelBoldDim =>
    { s with temp := { s.temp with flags := Flags.remove s.temp.flags (Flags.BOLD ||| Flags.DIM) } }
  | Attr.Italic =>
    { s with temp := { s.temp with flags := Flags.insert s.temp.flags Flags.ITALIC } }
  | Attr.CancelItalic =>
    { s with temp := { s.temp with flags := Flags.remove s.temp.flags Flags.ITALIC } }
  | Attr.Underline =>
    { s with temp := { s.temp with flags := Flags.insert s.temp.flags Flags.UNDERLINE } }
  | Attr.CancelUnderline =>
    { s with temp := { s.temp with flags := Flags.remove s.temp.flags Flags.UNDERLINE } }
  | Attr.Hidden =>
    { s with temp := { s.temp with flags := Flags.insert s.temp.flags Flags.HIDDEN } }
  | Attr.CancelHidden =>
    { s with temp := { s.temp with flags := Flags.remove s.temp.flags Flags.HIDDEN } }
  | Attr.Strike =>
    { s with temp := { s.temp with flags := Flags.insert s.temp.flags Flags.STRIKEOUT } }
  | Attr.CancelStrike =>
    { s with temp := { s.temp with flags := Flags.remove s.temp.flags Flags.STRIKEOUT } }
  | Attr.Unhandled => s

/-- `Handler::device_status`: argument 5 enqueues the fixed OK reply, 6
enqueues the cursor-position report with 1-indexed coordinates; other
arguments are ignored.  String bytes are modelled as the numeric values of
the (ASCII) characters of the formatted string. -/
def device_status (s : ConsoleInner) (arg : Nat) : ConsoleInner :=
  match arg with
  | 5 => { s with report := s.report ++ [27, 91, 48, 110] }
  | 6 =>
    let str := "\x1b[" ++ Nat.repr (s.cursor.row + 1) ++ ";"
      ++ Nat.repr (s.cursor.col + 1) ++ "R"
    { s with report := s.report ++ str.toList.map Char.toNat }
  | _ => s

end ConsoleInner

/-- One cell-drawing pass over the tail of a row, starting at column `col`
(the inner loop of `Console::draw`).  The renderer is the external per-cell
draw contract; on its first error the traversal stops: cells already visited
keep their new flags, the failing cell and everything after it are returned
unchanged, and the error is passed along. -/
def drawCellsFrom {E : Type} (render : Nat → Nat → Cell → Except E Unit)
    (row : Nat) : Nat → List Cell → List Cell × Option E
  | _, [] => ([], none)
  | col, cell :: rest =>
    if cell.dirty then
      match render row col cell with
      | Except.error e => (cell :: rest, some e)
      | Except.ok _ =>
        let p := drawCellsFrom render row (col + 1) rest
        ({ cell with dirty := false } :: p.1, p.2)
    else
      let p := drawCellsFrom render row (col + 1) rest
      (cell :: p.1, p.2)

/-- The outer loop of `Console::draw` over the rows, starting at row index
`row`; stops at the first error, leaving later rows unchanged. -/
def drawRowsFrom {E : Type} (render : Nat → Nat → Cell → Except E Unit) :
    Nat → List (List Cell) → List (List Cell) × Option E
  | _, [] => ([], none)
  | row, r :: rs =>
    let p := drawCellsFrom render row 0 r
    match p.2 with
    | some e => (p.1 :: rs, some e)
    | none =>
      let q := drawRowsFrom render (row + 1) rs
      (p.1 :: q.1, q.2)

/-- The public console of src/console.rs.  The escape-sequence parser
(`vte::Parser`) and the drawing `Style` are external collaborators with no
bearing on the claims; the state the claims speak about is `inner`. -/
structure Console where
  inner : ConsoleInner
deriving DecidableEq, Repr

namespace Console

/-- `Console::new`: default cursor and saved cursor, default pen, a fresh
`width × height` cell buffer, auto-wrap on, empty report queue.  The source
performs no validation: the constructor is total, also at width or height
zero. -/
def new (width height : Nat) : Console :=
  { inner :=
    { cursor := Cursor.default
      saved_cursor := Cursor.default
      temp := Cell.default
      buf := TextBuffer.new width height
      auto_wrap := true
      report := [] } }

/-- `Console::pop_report`: pop the front of the report queue. -/
def pop_report (c : Console) : Option Nat × Console :=
  match c.inner.report with
  | [] => (none, c)
  | b :: rest => (some b, { c with inner := { c.inner with report := rest } })

/-- `Console::rows`. -/
def rows (c : Console) : Nat := c.inner.buf.height

/-- `Console::columns`. -/
def columns (c : Console) : Nat := c.inner.buf.width

/-- `Console::get_cursor_position`. -/
def get_cursor_position (c : Console) : Nat × Nat :=
  (c.inner.cursor.row, c.inner.cursor.col)

/-- `Console::draw`: visit every cell in row-major order; draw the dirty
ones through the external renderer, clearing each dirty flag right after its
successful draw; the first renderer error aborts the pass and is returned,
with the partially-updated buffer kept (the source mutates in place). -/
def draw {E : Type} (render : Nat → Nat → Cell → Except E Unit)
    (c : Console) : Console × Option E :=
  let p := drawRowsFrom render 0 c.inner.buf.buf
  ({ c with inner := { c.inner with buf := { c.inner.buf with buf := p.1 } } },
    p.2)

/-- Repeatedly call `pop_report`, collecting each result in order (an
observer over the public API used to state FIFO-drain properties). -/
def popAll (c : Console) : Nat → List (Option Nat)
  | 0 => []
  | n + 1 =>
    let p := c.pop_report
    p.1 :: popAll p.2 n

end Console

/-- The interpreter operations named by the cursor-bounds claim, as a closed
syntax of events dispatched to `ConsoleInner`. -/
inductive Op where
  | input (c : Char)
  | goto (row col : Nat)
  | goto_line (row : Nat)
  | goto_col (col : Nat)
  | move_up (n : Nat)
  | move_down (n : Nat)
  | move_forward (n : Nat)
  | move_backward (n : Nat)
  | linefeed
  | backspace
  | carriage_return
  | save_cursor_position
  | restore_cursor_position
  | clear_line (m : LineClearMode)
  | clear_screen (m : ClearMode)
deriving DecidableEq, Repr

/-- Dispatch one operation to the corresponding `ConsoleInner` method. -/
def applyOp (s : ConsoleInner) : Op → ConsoleInner
  | Op.input c => s.input c
  | Op.goto r c => s.goto r c
  | Op.goto_line r => s.goto_line r
  | Op.goto_col c => s.goto_col c
  | Op.move_up n => s.move_up n
  | Op.move_down n => s.move_down n
  | Op.move_forward n => s.move_forward n
  | Op.move_backward n => s.move_backward n
  | Op.linefeed => s.linefeed
  | Op.backspace => s.backspace
  | Op.carriage_return => s.carriage_return
  | Op.save_cursor_position => s.save_cursor_position
  | Op.restore_cursor_position => s.restore_cursor_position
  | Op.clear_line m => s.clear_line m
  | Op.clear_screen m => s.clear_screen m

/-- Apply a sequence of operations in order. -/
def applyOps (s : ConsoleInner) (l : List Op) : ConsoleInner :=
  l.foldl applyOp s

/-! ### Lemmas about the cell buffer -/

namespace TextBuffer

theorem write_oob (tb : TextBuffer) (r c : Nat) (cell : Cell)
    (h : tb.height ≤ r ∨ tb.width ≤ c) : tb.write r c cell = tb := by
  unfold write
  exact if_pos h

@[simp] theorem width_write (tb : TextBuffer) (r c : Nat) (cell : Cell) :
    (tb.write r c cell).width = tb.width := by
  unfold write; split <;> rfl

@[simp] theorem height_write (tb : TextBuffer) (r c : Nat) (cell : Cell) :
    (tb.write r c cell).height = tb.height := by
  unfold write; split <;> rfl

@[simp] theorem row_offset_write (tb : TextBuffer) (r c : Nat) (cell : Cell) :
    (tb.write r c cell).row_offset = tb.row_offset := by
  unfold write; split <;> rfl

theorem wf_write (tb : TextBuffer) (r c : Nat) (cell : Cell) (h : tb.wf) :
    (tb.write r c cell).wf := by
  obtain ⟨h1, h2, h3⟩ := h
  unfold write
  split
  · exact ⟨h1, h2, h3⟩
  · rcases Nat.lt_or_ge r tb.buf.length with hr | hr
    · refine ⟨by simpa using h1, ?_, by simpa using h3⟩
      intro row hrow
      rcases List.mem_or_eq_of_mem_set hrow with hmem | heq
      · exact h2 _ hmem
      · subst heq
        simp only [List.length_set]
        rw [List.getD_eq_getElem?_getD, List.getElem?_eq_getElem hr]
        exact h2 _ (List.getElem_mem hr)
    · rw [List.set_eq_of_length_le hr]
      exact ⟨h1, h2, h3⟩

theorem read_oob (tb : TextBuffer) (r c : Nat)
    (h : tb.height ≤ r ∨ tb.width ≤ c) : tb.read r c = Cell.default := by
  unfold read
  exact if_pos h

theorem write_in (tb : TextBuffer) (r c : Nat) (cell : Cell)
    (hr : r < tb.height) (hc : c < tb.width) :
    tb.write r c cell =
      { tb with buf := tb.buf.set r ((tb.buf.getD r []).set c cell) } := by
  unfold write
  rw [if_neg (by omega)]

theorem read_in (tb : TextBuffer) (r c : Nat)
    (hr : r < tb.height) (hc : c < tb.width) :
    tb.read r c = (tb.buf.getD r []).getD c Cell.default := by
  unfold read
  rw [if_neg (by omega)]

theorem rowlen_of_wf (tb : TextBuffer) (r : Nat) (h : tb.wf)
    (hr : r < tb.height) : (tb.buf.getD r []).length = tb.width := by
  obtain ⟨h1, h2, _⟩ := h
  have hrlen : r < tb.buf.length := h1 ▸ hr
  rw [List.getD_eq_getElem?_getD, List.getElem?_eq_getElem hrlen]
  exact h2 _ (List.getElem_mem hrlen)

theorem read_write_self (tb : TextBuffer) (r c : Nat) (cell : Cell)
    (h : tb.wf) (hr : r < tb.height) (hc : c < tb.width) :
    (tb.write r c cell).read r c = cell := by
  have hrlen : r < tb.buf.length := h.1 ▸ hr
  have hclen : c < (tb.buf.getD r []).length := (rowlen_of_wf tb r h hr) ▸ hc
  rw [write_in tb r c cell hr hc,
    read_in { tb with buf := tb.buf.set r ((tb.buf.getD r []).set c cell) }
      r c hr hc]
  rw [List.getD_eq_getElem?_getD] at hclen
  have hclen2 : c < tb.buf[r].length := by
    simpa [List.getElem?_eq_getElem hrlen] using hclen
  simp [List.getD_eq_getElem?_getD, List.getElem?_set, hrlen, hclen2]

theorem read_write_ne (tb : TextBuffer) (r c r' c' : Nat) (cell : Cell)
    (h : tb.wf) (hne : ¬(r = r' ∧ c = c')) :
    (tb.write r c cell).read r' c' = tb.read r' c' := by
  by_cases hin : r < tb.height ∧ c < tb.width
  · obtain ⟨hr, hc⟩ := hin
    rw [write_in tb r c cell hr hc]
    rcases Nat.lt_or_ge r' tb.height with hr' | hr'
    · rcases Nat.lt_or_ge c' tb.width with hc' | hc'
      · rw [read_in { tb with
            buf := tb.buf.set r ((tb.buf.getD r []).set c cell) } r' c' hr' hc',
          read_in tb r' c' hr' hc']
        have hrlen : r < tb.buf.length := h.1 ▸ hr
        by_cases hrr : r = r'
        · subst hrr
          have hcc : c ≠ c' := fun hcc => hne ⟨rfl, hcc⟩
          simp [List.getD_eq_getElem?_getD, List.getElem?_set, hrlen, hcc]
        · simp [List.getD_eq_getElem?_getD, List.getElem?_set, hrr]
      · rw [read_oob { tb with
            buf := tb.buf.set r ((tb.buf.getD r []).set c cell) } r' c'
            (Or.inr hc'),
          read_oob tb r' c' (Or.inr hc')]
    · rw [read_oob { tb with
          buf := tb.buf.set r ((tb.buf.getD r []).set c cell) } r' c'
          (Or.inl hr'),
        read_oob tb r' c' (Or.inl hr')]
  · rw [write_oob tb r c cell (by omega)]

theorem length_foldl_set (l : List Cell) (cell : Cell) (n : Nat) :
    ((List.range n).foldl (fun r col => r.set col cell) l).length = l.length := by
  induction n with
  | zero => rfl
  | succ n ih =>
    rw [List.range_succ, List.foldl_append]
    simpa using ih

theorem getElem?_foldl_set (l : List Cell) (cell : Cell) (n j : Nat) :
    ((List.range n).foldl (fun r col => r.set col cell) l)[j]? =
      if j < n ∧ j < l.length then some cell else l[j]? := by
  induction n with
  | zero => simp
  | succ n ih =>
    rw [List.range_succ, List.foldl_append]
    simp only [List.foldl_cons, List.foldl_nil, List.getElem?_set,
      length_foldl_set, ih]
    by_cases hnj : n = j
    · subst hnj
      by_cases hlen : n < l.length
      · simp [hlen]
      · rw [if_pos rfl, if_neg hlen,
          if_neg (by omega : ¬(n < n + 1 ∧ n < l.length)),
          List.getElem?_eq_none (by omega)]
    · rw [if_neg hnj]
      by_cases hj : j < n ∧ j < l.length
      · rw [if_pos hj, if_pos ⟨by omega, hj.2⟩]
      · rw [if_neg hj, if_neg (by omega)]

theorem read_mk (nb : List (List Cell)) (ro w h r c : Nat)
    (hr : r < h) (hc : c < w) :
    (TextBuffer.mk nb ro w h).read r c = (nb.getD r []).getD c Cell.default := by
  unfold read
  rw [if_neg]
  push_neg
  exact ⟨hr, hc⟩

theorem read_mk_oob (nb : List (List Cell)) (ro w h r c : Nat)
    (hb : h ≤ r ∨ w ≤ c) :
    (TextBuffer.mk nb ro w h).read r c = Cell.default := by
  unfold read
  exact if_pos hb

theorem read_update_offset (x : TextBuffer) (ro r c : Nat) :
    (TextBuffer.mk x.buf ro x.width x.height).read r c = x.read r c := rfl

@[simp] theorem width_clear_line (tb : TextBuffer) (row : Nat) (cell : Cell) :
    (tb.clear_line row cell).width = tb.width := rfl

@[simp] theorem height_clear_line (tb : TextBuffer) (row : Nat) (cell : Cell) :
    (tb.clear_line row cell).height = tb.height := rfl

@[simp] theorem row_offset_clear_line (tb : TextBuffer) (row : Nat) (cell : Cell) :
    (tb.clear_line row cell).row_offset = tb.row_offset := rfl

theorem wf_clear_line (tb : TextBuffer) (row : Nat) (cell : Cell) (h : tb.wf) :
    (tb.clear_line row cell).wf := by
  obtain ⟨h1, h2, h3⟩ := h
  unfold clear_line
  rcases Nat.lt_or_ge row tb.buf.length with hrl | hrl
  · refine ⟨by simpa using h1, ?_, by simpa using h3⟩
    intro l hl
    rcases List.mem_or_eq_of_mem_set hl with hmem | heq
    · exact h2 _ hmem
    · subst heq
      rw [length_foldl_set]
      rw [List.getD_eq_getElem?_getD, List.getElem?_eq_getElem hrl]
      exact h2 _ (List.getElem_mem hrl)
  · rw [List.set_eq_of_length_le hrl]
    exact ⟨h1, h2, h3⟩

theorem read_clear_line (tb : TextBuffer) (row : Nat) (cell : Cell) (r c : Nat)
    (h : tb.wf) (hrow : row < tb.height) :
    (tb.clear_line row cell).read r c =
      if r = row ∧ c < tb.width then cell else tb.read r c := by
  have hrowlen : (tb.buf.getD row []).length = tb.width := rowlen_of_wf tb row h hrow
  have hrlen : row < tb.buf.length := h.1 ▸ hrow
  rcases Nat.lt_or_ge r tb.height with hr | hr
  · rcases Nat.lt_or_ge c tb.width with hc | hc
    · unfold clear_line
      rw [read_mk _ _ _ _ r c hr hc, read_in tb r c hr hc]
      by_cases hrr : r = row
      · subst hrr
        rw [if_pos ⟨rfl, hc⟩]
        rw [List.getD_eq_getElem?_getD (tb.buf.set r _) r]
        rw [List.getElem?_set, if_pos rfl, if_pos hrlen, Option.getD_some,
          List.getD_eq_getElem?_getD, getElem?_foldl_set,
          if_pos ⟨hc, hrowlen ▸ hc⟩, Option.getD_some]
      · rw [if_neg (fun hand => hrr hand.1)]
        rw [List.getD_eq_getElem?_getD (tb.buf.set row _) r]
        rw [List.getElem?_set, if_neg (fun hh => hrr hh.symm),
          ← List.getD_eq_getElem?_getD]
    · unfold clear_line
      rw [read_mk_oob _ _ _ _ r c (Or.inr hc), read_oob tb r c (Or.inr hc),
        if_neg (by omega)]
  · unfold clear_line
    rw [read_mk_oob _ _ _ _ r c (Or.inl hr), read_oob tb r c (Or.inl hr),
      if_neg (by omega)]

@[simp] theorem width_new_line (tb : TextBuffer) (cell : Cell) :
    (tb.new_line cell).width = tb.width := rfl

@[simp] theorem height_new_line (tb : TextBuffer) (cell : Cell) :
    (tb.new_line cell).height = tb.height := rfl

theorem row_offset_new_line (tb : TextBuffer) (cell : Cell) :
    (tb.new_line cell).row_offset = (tb.row_offset + 1) % tb.height := rfl

theorem wf_new_line (tb : TextBuffer) (cell : Cell) (h : tb.wf) :
    (tb.new_line cell).wf := by
  obtain ⟨a, b, _⟩ := wf_clear_line tb tb.row_offset cell h
  have hh : 0 < tb.height := Nat.lt_of_le_of_lt (Nat.zero_le _) h.2.2
  exact ⟨a, b, Nat.mod_lt _ hh⟩

theorem read_new_line (tb : TextBuffer) (cell : Cell) (r c : Nat) (h : tb.wf) :
    (tb.new_line cell).read r c =
      if r = tb.row_offset ∧ c < tb.width then cell else tb.read r c := by
  have hoff : tb.row_offset < tb.height := h.2.2
  unfold new_line
  rw [read_update_offset, read_clear_line tb tb.row_offset cell r c h hoff]

theorem dims_foldl {α : Type} (l : List α) (f : TextBuffer → α → TextBuffer)
    (hf : ∀ b a, (f b a).width = b.width ∧ (f b a).height = b.height)
    (b : TextBuffer) :
    (l.foldl f b).width = b.width ∧ (l.foldl f b).height = b.height := by
  induction l generalizing b with
  | nil => exact ⟨rfl, rfl⟩
  | cons x xs ih =>
    rw [List.foldl_cons]
    obtain ⟨hw, hh⟩ := ih (f b x)
    exact ⟨hw.trans (hf b x).1, hh.trans (hf b x).2⟩

theorem dims_clear (tb : TextBuffer) (cell : Cell) :
    (tb.clear cell).width = tb.width ∧ (tb.clear cell).height = tb.height := by
  unfold clear
  exact dims_foldl _ _
    (fun b i => dims_foldl _ _ (fun b2 j => ⟨width_write .., height_write ..⟩) b)
    _

@[simp] theorem width_clear (tb : TextBuffer) (cell : Cell) :
    (tb.clear cell).width = tb.width := (dims_clear tb cell).1

@[simp] theorem height_clear (tb : TextBuffer) (cell : Cell) :
    (tb.clear cell).height = tb.height := (dims_clear tb cell).2

@[simp] theorem width_foldl_write_row (l : List Nat) (row : Nat) (bg : Cell)
    (b : TextBuffer) :
    (l.foldl (fun b i => b.write row i bg) b).width = b.width :=
  (dims_foldl l _ (fun b a => ⟨width_write .., height_write ..⟩) b).1

@[simp] theorem height_foldl_write_row (l : List Nat) (row : Nat) (bg : Cell)
    (b : TextBuffer) :
    (l.foldl (fun b i => b.write row i bg) b).height = b.height :=
  (dims_foldl l _ (fun b a => ⟨width_write .., height_write ..⟩) b).2

@[simp] theorem width_foldl_write_rect (l : List Nat) (bg : Cell)
    (b : TextBuffer) :
    (l.foldl
      (fun b i => (List.range b.width).foldl (fun b2 j => b2.write i j bg) b)
      b).width = b.width :=
  (dims_foldl l _
    (fun b a => dims_foldl _ _ (fun b2 j => ⟨width_write .., height_write ..⟩) b)
    b).1

@[simp] theorem height_foldl_write_rect (l : List Nat) (bg : Cell)
    (b : TextBuffer) :
    (l.foldl
      (fun b i => (List.range b.width).foldl (fun b2 j => b2.write i j bg) b)
      b).height = b.height :=
  (dims_foldl l _
    (fun b a => dims_foldl _ _ (fun b2 j => ⟨width_write .., height_write ..⟩) b)
    b).2

@[simp] theorem width_foldl_shift (l : List Nat) (row cnt : Nat) (bg : Cell)
    (b : TextBuffer) :
    (l.foldl (fun b i => (b.write row (i - cnt) (b.read row i)).write row i bg)
      b).width = b.width :=
  (dims_foldl l _ (fun b a => by simp) b).1

@[simp] theorem height_foldl_shift (l : List Nat) (row cnt : Nat) (bg : Cell)
    (b : TextBuffer) :
    (l.foldl (fun b i => (b.write row (i - cnt) (b.read row i)).write row i bg)
      b).height = b.height :=
  (dims_foldl l _ (fun b a => by simp) b).2

end TextBuffer

/-! ### Lemmas about the interpreter operations -/

namespace ConsoleInner

/-- Buffer dimensions are never changed by an interpreter operation. -/
theorem buf_dims_applyOp (op : Op) (s : ConsoleInner) :
    (applyOp s op).buf.width = s.buf.width ∧
      (applyOp s op).buf.height = s.buf.height := by
  cases op with
  | input ch =>
    simp only [applyOp, input, putChar, linefeed]
    split_ifs <;> simp
  | goto r c => exact ⟨rfl, rfl⟩
  | goto_line r => exact ⟨rfl, rfl⟩
  | goto_col c => exact ⟨rfl, rfl⟩
  | move_up n => exact ⟨rfl, rfl⟩
  | move_down n => exact ⟨rfl, rfl⟩
  | move_forward n => exact ⟨rfl, rfl⟩
  | move_backward n => exact ⟨rfl, rfl⟩
  | linefeed =>
    simp only [applyOp, linefeed]
    split <;> simp
  | backspace =>
    simp only [applyOp, backspace]
    split <;> exact ⟨rfl, rfl⟩
  | carriage_return => exact ⟨rfl, rfl⟩
  | save_cursor_position => exact ⟨rfl, rfl⟩
  | restore_cursor_position => exact ⟨rfl, rfl⟩
  | clear_line m =>
    simp only [applyOp, clear_line]
    cases m <;> simp
  | clear_screen m =>
    simp only [applyOp, clear_screen]
    cases m <;> simp

/-- The invariant behind the (amended) cursor-bounds claim: fixed buffer
dimensions, and both cursors inside `[0, height] × [0, width]` — bounds
inclusive, since `goto` clamps to `height`/`width` and `input` parks the
column at `width`. -/
def CursorInv (w h : Nat) (s : ConsoleInner) : Prop :=
  s.buf.width = w ∧ s.buf.height = h ∧
    s.cursor.row ≤ h ∧ s.cursor.col ≤ w ∧
    s.saved_cursor.row ≤ h ∧ s.saved_cursor.col ≤ w

theorem cursorInv_applyOp (w h : Nat) (hw : 1 ≤ w) (hh : 1 ≤ h)
    (s : ConsoleInner) (op : Op) (hs : CursorInv w h s) :
    CursorInv w h (applyOp s op) := by
  obtain ⟨hbw, hbh, hr, hc, hsr, hsc⟩ := hs
  obtain ⟨hdw, hdh⟩ := buf_dims_applyOp op s
  refine ⟨hdw.trans hbw, hdh.trans hbh, ?_⟩
  cases op with
  | input ch =>
    simp only [applyOp, input, putChar, linefeed]
    split_ifs <;> simp_all <;> omega
  | goto r c =>
    simp only [applyOp, goto]
    omega
  | goto_line r =>
    simp only [applyOp, goto_line, goto]
    omega
  | goto_col c =>
    simp only [applyOp, goto_col, goto]
    omega
  | move_up n =>
    simp only [applyOp, move_up, goto]
    omega
  | move_down n =>
    simp only [applyOp, move_down, goto]
    omega
  | move_forward n =>
    simp only [applyOp, move_forward]
    omega
  | move_backward n =>
    simp only [applyOp, move_backward]
    omega
  | linefeed =>
    simp only [applyOp, linefeed]
    split <;> simp_all <;> omega
  | backspace =>
    simp only [applyOp, backspace]
    split <;> simp_all <;> omega
  | carriage_return =>
    simp only [applyOp, carriage_return]
    exact ⟨hr, Nat.zero_le w, hsr, hsc⟩
  | save_cursor_position =>
    simp only [applyOp, save_cursor_position]
    exact ⟨hr, hc, hr, hc⟩
  | restore_cursor_position =>
    simp only [applyOp, restore_cursor_position]
    exact ⟨hsr, hsc, hsr, hsc⟩
  | clear_line m =>
    simp only [applyOp, clear_line]
    cases m <;> exact ⟨hr, hc, hsr, hsc⟩
  | clear_screen m =>
    cases m with
    | Above =>
      simp only [applyOp, clear_screen]
      exact ⟨hr, hc, hsr, hsc⟩
    | Below =>
      simp only [applyOp, clear_screen]
      exact ⟨hr, hc, hsr, hsc⟩
    | All =>
      simp only [applyOp, clear_screen, Cursor.default]
      exact ⟨Nat.zero_le h, Nat.zero_le w, hsr, hsc⟩
    | Saved =>
      simp only [applyOp, clear_screen]
      exact ⟨hr, hc, hsr, hsc⟩

theorem cursorInv_applyOps (w h : Nat) (hw : 1 ≤ w) (hh : 1 ≤ h)
    (s : ConsoleInner) (ops : List Op) (hs : CursorInv w h s) :
    CursorInv w h (applyOps s ops) := by
  induction ops generalizing s with
  | nil => exact hs
  | cons op ops ih =>
    exact ih _ (cursorInv_applyOp w h hw hh s op hs)

/-- Unfolding of `input` when the cursor column is strictly inside the row:
stamp and advance, no wrap. -/
theorem input_lt (s : ConsoleInner) (ch : Char)
    (hcol : s.cursor.col < s.buf.width) :
    s.input ch = { s with
      buf := s.buf.write s.cursor.row s.cursor.col { s.temp with c := ch }
      cursor := { s.cursor with col := s.cursor.col + 1 } } := by
  simp only [ConsoleInner.input, ConsoleInner.putChar]
  rw [if_neg (by omega)]

/-- Unfolding of `input` at or past the right edge with auto-wrap on:
column 0, linefeed, then stamp and advance. -/
theorem input_wrap (s : ConsoleInner) (ch : Char)
    (hcol : s.cursor.col ≥ s.buf.width) (hwrap : s.auto_wrap = true) :
    s.input ch =
      (({ s with cursor := { s.cursor with col := 0 } }).linefeed).putChar ch := by
  simp only [ConsoleInner.input]
  rw [if_pos hcol, if_neg (by simp [hwrap])]

/-- Unfolding of `linefeed` when the cursor is strictly above the last row:
advance the row, reset the column, leave the buffer alone. -/
theorem linefeed_not_last (s : ConsoleInner)
    (hrow : s.cursor.row < s.buf.height - 1) :
    s.linefeed = { s with cursor := { row := s.cursor.row + 1, col := 0 } } := by
  simp only [ConsoleInner.linefeed]
  rw [if_pos hrow]

/-- A fresh buffer of positive height is well-formed. -/
theorem wf_new (w h : Nat) (hh : 1 ≤ h) : (TextBuffer.new w h).wf := by
  refine ⟨by simp [TextBuffer.new], ?_, by simp [TextBuffer.new]; omega⟩
  intro r hr
  rw [List.eq_of_mem_replicate hr]
  simp [TextBuffer.new]

/-- Running `input` over a list of characters that fits in the remainder of
the current row: the cursor sweeps right without wrapping, each character is
stamped with the pen at successive columns, and everything else — pen,
auto-wrap, buffer dimensions and offset, and every cell outside the swept
span — is unchanged. -/
theorem input_run (cs : List Char) : ∀ (s : ConsoleInner),
    s.buf.wf → s.cursor.row < s.buf.height →
    s.cursor.col + cs.length ≤ s.buf.width →
    (cs.foldl ConsoleInner.input s).cursor.row = s.cursor.row ∧
    (cs.foldl ConsoleInner.input s).cursor.col = s.cursor.col + cs.length ∧
    (cs.foldl ConsoleInner.input s).temp = s.temp ∧
    (cs.foldl ConsoleInner.input s).auto_wrap = s.auto_wrap ∧
    (cs.foldl ConsoleInner.input s).buf.width = s.buf.width ∧
    (cs.foldl ConsoleInner.input s).buf.height = s.buf.height ∧
    (cs.foldl ConsoleInner.input s).buf.wf ∧
    (∀ i, i < cs.length →
      (cs.foldl ConsoleInner.input s).buf.read s.cursor.row (s.cursor.col + i) =
        { s.temp with c := cs.getD i ' ' }) ∧
    (∀ r c, r ≠ s.cursor.row ∨ c < s.cursor.col ∨ s.cursor.col + cs.length ≤ c →
      (cs.foldl ConsoleInner.input s).buf.read r c = s.buf.read r c) := by
  induction cs with
  | nil =>
    intro s hwf hr hlen
    refine ⟨rfl, rfl, rfl, rfl, rfl, rfl, hwf, ?_, ?_⟩
    · intro i hi
      simp at hi
    · intro r c _
      rfl
  | cons ch rest ih =>
    intro s hwf hr hlen
    simp only [List.length_cons] at hlen ⊢
    have hcol : s.cursor.col < s.buf.width := by omega
    have hkey := input_lt s ch hcol
    have er : (s.input ch).cursor.row = s.cursor.row := by rw [hkey]
    have ec : (s.input ch).cursor.col = s.cursor.col + 1 := by rw [hkey]
    have et : (s.input ch).temp = s.temp := by rw [hkey]
    have ea : (s.input ch).auto_wrap = s.auto_wrap := by rw [hkey]
    have eb : (s.input ch).buf =
        s.buf.write s.cursor.row s.cursor.col { s.temp with c := ch } := by
      rw [hkey]
    rw [List.foldl_cons]
    obtain ⟨prow, pcol, ptemp, pwrap, pw, ph, pwf, pread, pframe⟩ :=
      ih (s.input ch) (by rw [eb]; exact TextBuffer.wf_write _ _ _ _ hwf)
        (by rw [er, eb]; simpa using hr)
        (by rw [ec, eb]; simp; omega)
    refine ⟨prow.trans er, ?_, ptemp.trans et, pwrap.trans ea,
      ?_, ?_, pwf, ?_, ?_⟩
    · rw [pcol, ec]
      omega
    · rw [pw, eb]
      simp
    · rw [ph, eb]
      simp
    · intro i hi
      cases i with
      | zero =>
        have hread := pframe s.cursor.row s.cursor.col
          (Or.inr (Or.inl (by rw [ec]; omega)))
        rw [Nat.add_zero, hread, eb,
          TextBuffer.read_write_self _ _ _ _ hwf hr hcol]
        simp
      | succ j =>
        have hpr := pread j (by omega)
        rw [er, ec, et, show s.cursor.col + 1 + j = s.cursor.col + (j + 1) by
          omega] at hpr
        rw [hpr]
        simp
    · intro r c hcond
      have hcond1 : r ≠ (s.input ch).cursor.row ∨ c < (s.input ch).cursor.col ∨
          (s.input ch).cursor.col + rest.length ≤ c := by
        rw [er, ec]
        rcases hcond with hx | hx | hx
        · exact Or.inl hx
        · exact Or.inr (Or.inl (by omega))
        · exact Or.inr (Or.inr (by omega))
      rw [pframe r c hcond1, eb]
      apply TextBuffer.read_write_ne _ _ _ _ _ _ hwf
      rintro ⟨hand1, hand2⟩
      rcases hcond with hx | hx | hx
      · exact hx hand1.symm
      · omega
      · omega

/-- Characterization of the `delete_chars` shifting loop after `k`
iterations starting at index `col + cnt`: rows other than `row` are
untouched, and a cell of `row` holds the cell `cnt` to its right when the
shift reached past it (and `cnt ≥ 1`), the background fill when only the
trailing clear reached it, and its original value otherwise.  Reads during
the loop always see original cells, because iteration `i` writes only at
`i - cnt` and `i`, both below the next read position. -/
theorem delete_fold (b0 : TextBuffer) (row cnt col : Nat) (bg : Cell)
    (hwf : b0.wf) (hrow : row < b0.height) :
    ∀ k, col + cnt + k ≤ b0.width →
      ((List.range' (col + cnt) k).foldl
          (fun b i => (b.write row (i - cnt) (b.read row i)).write row i bg)
          b0).wf ∧
      ((List.range' (col + cnt) k).foldl
          (fun b i => (b.write row (i - cnt) (b.read row i)).write row i bg)
          b0).width = b0.width ∧
      ((List.range' (col + cnt) k).foldl
          (fun b i => (b.write row (i - cnt) (b.read row i)).write row i bg)
          b0).height = b0.height ∧
      (∀ r c, r ≠ row →
        ((List.range' (col + cnt) k).foldl
            (fun b i => (b.write row (i - cnt) (b.read row i)).write row i bg)
            b0).read r c = b0.read r c) ∧
      (∀ p, ((List.range' (col + cnt) k).foldl
            (fun b i => (b.write row (i - cnt) (b.read row i)).write row i bg)
            b0).read row p =
        if 1 ≤ cnt ∧ col ≤ p ∧ p + cnt < col + cnt + k then
          b0.read row (p + cnt)
        else if col + cnt ≤ p ∧ p < col + cnt + k then bg
        else b0.read row p) := by
  intro k
  induction k with
  | zero =>
    intro _
    refine ⟨hwf, rfl, rfl, fun r c _ => rfl, ?_⟩
    intro p
    rw [if_neg (by omega), if_neg (by omega)]
    rfl
  | succ k ihk =>
    intro hk
    obtain ⟨qwf, qw, qh, qframe, qread⟩ := ihk (by omega)
    rw [show List.range' (col + cnt) (k + 1) =
        List.range' (col + cnt) k ++ [col + cnt + k] from by
      have hx : List.range' (col + cnt) (k + 1) =
          List.range' (col + cnt) k ++ [col + cnt + 1 * k] :=
        List.range'_concat (col + cnt) k
      simpa using hx,
      List.foldl_append]
    set bk := (List.range' (col + cnt) k).foldl
      (fun b i => (b.write row (i - cnt) (b.read row i)).write row i bg) b0
      with hbk
    simp only [List.foldl_cons, List.foldl_nil]
    have hreadi : bk.read row (col + cnt + k) = b0.read row (col + cnt + k) := by
      rw [qread, if_neg (by omega), if_neg (by omega)]
    rw [hreadi]
    have hw1wf : (bk.write row (col + cnt + k - cnt)
        (b0.read row (col + cnt + k))).wf := TextBuffer.wf_write _ _ _ _ qwf
    have ew1w : (bk.write row (col + cnt + k - cnt)
        (b0.read row (col + cnt + k))).width = b0.width := by simp [qw]
    have ew1h : (bk.write row (col + cnt + k - cnt)
        (b0.read row (col + cnt + k))).height = b0.height := by simp [qh]
    refine ⟨TextBuffer.wf_write _ _ _ _ hw1wf, by simp [qw], by simp [qh],
      ?_, ?_⟩
    · intro r c hne
      rw [TextBuffer.read_write_ne _ _ _ _ _ _ hw1wf
          (fun hand => hne hand.1.symm),
        TextBuffer.read_write_ne _ _ _ _ _ _ qwf
          (fun hand => hne hand.1.symm),
        qframe r c hne]
    · intro p
      by_cases hp1 : p = col + cnt + k
      · subst hp1
        rw [TextBuffer.read_write_self _ _ _ _ hw1wf
            (by rw [ew1h]; exact hrow) (by rw [ew1w]; omega),
          if_neg (by omega), if_pos (by omega)]
      · by_cases hp2 : 1 ≤ cnt ∧ p + cnt = col + cnt + k
        · have hpt : col + cnt + k - cnt = p := by omega
          rw [TextBuffer.read_write_ne _ _ _ _ _ _ hw1wf
              (fun hand => hp1 hand.2.symm),
            hpt, TextBuffer.read_write_self _ _ _ _ qwf
              (by rw [qh]; exact hrow) (by rw [qw]; omega),
            if_pos (by omega)]
          rw [hp2.2]
        · rw [TextBuffer.read_write_ne _ _ _ _ _ _ hw1wf
              (fun hand => hp1 hand.2.symm),
            TextBuffer.read_write_ne _ _ _ _ _ _ qwf
              (fun hand => by omega),
            qread p]
          split_ifs <;> first | rfl | omega

/-- Unfolding of `putChar` as a record update. -/
theorem putChar_eq (s : ConsoleInner) (ch : Char) :
    s.putChar ch = { s with
      buf := s.buf.write s.cursor.row s.cursor.col { s.temp with c := ch }
      cursor := { s.cursor with col := s.cursor.col + 1 } } := rfl

end ConsoleInner

/-! ### Lemmas about drawing -/

/-- Clearing the dirty flag of an already-clean cell is the identity. -/
theorem clean_of_not_dirty (cell : Cell) (h : cell.dirty = false) :
    ({ cell with dirty := false } : Cell) = cell := by
  cases cell
  simp_all

/-- A cell pass in which the renderer succeeds on every visited column
cleans every dirty flag of the row segment and reports no error. -/
theorem drawCellsFrom_ok {E : Type} (f : Nat → Nat → Cell → Except E Unit)
    (row : Nat) :
    ∀ (l : List Cell) (col0 : Nat),
      (∀ j cell, j < l.length → f row (col0 + j) cell = Except.ok ()) →
      drawCellsFrom f row col0 l =
        (l.map (fun cell => { cell with dirty := false }), none) := by
  intro l
  induction l with
  | nil =>
    intro col0 _
    rfl
  | cons cell rest ihl =>
    intro col0 hok
    have h0 : f row col0 cell = Except.ok () := by
      simpa using hok 0 cell (by simp)
    have hrest := ihl (col0 + 1) (fun j c hj => by
      have hx := hok (j + 1) c (by simp only [List.length_cons]; omega)
      rw [show col0 + (j + 1) = col0 + 1 + j by omega] at hx
      exact hx)
    by_cases hd : cell.dirty = true
    · simp [drawCellsFrom, hd, h0, hrest]
    · simp [drawCellsFrom, hd, hrest,
        clean_of_not_dirty cell (by simpa using hd)]

/-- A cell pass whose renderer succeeds strictly before relative index `k`
and fails on the dirty cell at `k` stops there: the error comes back, the
first `k` cells have their dirty flags cleared, and the cells from `k` on
are untouched. -/
theorem drawCellsFrom_fail {E : Type} (f : Nat → Nat → Cell → Except E Unit)
    (row : Nat) (e : E) :
    ∀ (k : Nat) (l : List Cell) (col0 : Nat),
      k < l.length →
      (l.getD k Cell.default).dirty = true →
      f row (col0 + k) (l.getD k Cell.default) = Except.error e →
      (∀ j cell, j < k → f row (col0 + j) cell = Except.ok ()) →
      drawCellsFrom f row col0 l =
        ((l.take k).map (fun cell => { cell with dirty := false }) ++ l.drop k,
          some e) := by
  intro k
  induction k with
  | zero =>
    intro l col0 hk hdirty hfail _
    cases l with
    | nil => simp at hk
    | cons cell rest =>
      rw [List.getD_cons_zero] at hdirty hfail
      rw [Nat.add_zero] at hfail
      simp [drawCellsFrom, hdirty, hfail]
  | succ k ihk =>
    intro l col0 hk hdirty hfail hok
    cases l with
    | nil => simp at hk
    | cons cell rest =>
      rw [List.getD_cons_succ] at hdirty hfail
      have h0 : f row col0 cell = Except.ok () := by
        simpa using hok 0 cell (by omega)
      have hrest := ihk rest (col0 + 1) (by simpa using hk) hdirty
        (by rw [show col0 + 1 + k = col0 + (k + 1) by omega]; exact hfail)
        (fun j c hj => by
          have hx := hok (j + 1) c (by omega)
          rw [show col0 + (j + 1) = col0 + 1 + j by omega] at hx
          exact hx)
      by_cases hd : cell.dirty = true
      · simp [drawCellsFrom, hd, h0, hrest]
      · simp [drawCellsFrom, hd, hrest,
          clean_of_not_dirty cell (by simpa using hd)]

/-- The row pass under a first failure in row `ri` (relative to `row0`) at
column `ci`: rows before it are fully cleaned, the failing row is cleaned up
to `ci` and untouched from `ci` on, rows after it are untouched, and the
error is propagated. -/
theorem drawRowsFrom_fail {E : Type} (f : Nat → Nat → Cell → Except E Unit)
    (e : E) :
    ∀ (ri : Nat) (rows : List (List Cell)) (row0 ci : Nat),
      ri < rows.length →
      ci < (rows.getD ri []).length →
      ((rows.getD ri []).getD ci Cell.default).dirty = true →
      f (row0 + ri) ci ((rows.getD ri []).getD ci Cell.default) =
        Except.error e →
      (∀ i j cell, i < ri → f (row0 + i) j cell = Except.ok ()) →
      (∀ j cell, j < ci → f (row0 + ri) j cell = Except.ok ()) →
      drawRowsFrom f row0 rows =
        ((rows.take ri).map
            (List.map (fun cell => { cell with dirty := false })) ++
          (((rows.getD ri []).take ci).map
              (fun cell => { cell with dirty := false }) ++
            (rows.getD ri []).drop ci) ::
          rows.drop (ri + 1), some e) := by
  intro ri
  induction ri with
  | zero =>
    intro rows row0 ci hri hci hdirty hfail _ hokc
    cases rows with
    | nil => simp at hri
    | cons r rs =>
      rw [List.getD_cons_zero] at hci hdirty hfail
      rw [Nat.add_zero] at hfail hokc
      have hrow := drawCellsFrom_fail f row0 e ci r 0 hci hdirty
        (by rw [Nat.zero_add]; exact hfail)
        (fun j c hj => by rw [Nat.zero_add]; exact hokc j c hj)
      simp [drawRowsFrom, hrow]
  | succ ri ihr =>
    intro rows row0 ci hri hci hdirty hfail hokr hokc
    cases rows with
    | nil => simp at hri
    | cons r rs =>
      rw [List.getD_cons_succ] at hci hdirty hfail
      have hrow := drawCellsFrom_ok f row0 r 0
        (fun j c hj => hokr 0 (0 + j) c (by omega))
      have hrest := ihr rs (row0 + 1) ci (by simpa using hri) hci hdirty
        (by rw [show row0 + 1 + ri = row0 + (ri + 1) by omega]; exact hfail)
        (fun i j c hi => by
          have hx := hokr (i + 1) j c (by omega)
          rw [show row0 + (i + 1) = row0 + 1 + i by omega] at hx
          exact hx)
        (fun j c hj => by
          have hx := hokc j c hj
          rw [show row0 + (ri + 1) = row0 + 1 + ri by omega] at hx
          exact hx)
      simp [drawRowsFrom, hrow, hrest]

/-! ### Claim theorems -/

/-- C5: with width 80, height ≥ 2 and auto-wrap on (the construction
default), feeding 81 printable characters from `(0, 0)` leaves the cursor at
`(1, 1)`, stamps the 81st character (with the default pen) at `(1, 0)`, and
the first 80 characters fill row 0. -/
theorem auto_wrap_81 (h : Nat) (hh : 2 ≤ h) (cs : List Char)
    (hlen : cs.length = 81) :
    (cs.foldl ConsoleInner.input (Console.new 80 h).inner).cursor.row = 1 ∧
      (cs.foldl ConsoleInner.input (Console.new 80 h).inner).cursor.col = 1 ∧
      (cs.foldl ConsoleInner.input (Console.new 80 h).inner).buf.read 1 0 =
        { Cell.default with c := cs.getD 80 ' ' } ∧
      (∀ i, i < 80 →
        (cs.foldl ConsoleInner.input (Console.new 80 h).inner).buf.read 0 i =
          { Cell.default with c := cs.getD i ' ' }) := by
  have hdl : (cs.drop 80).length = 1 := by rw [List.length_drop, hlen]
  obtain ⟨d, hd⟩ := List.length_eq_one.mp hdl
  have hsplit : cs = cs.take 80 ++ [d] := by
    conv_lhs => rw [← List.take_append_drop 80 cs]
    rw [hd]
  have htl : (cs.take 80).length = 80 := by rw [List.length_take]; omega
  have hgetD80 : cs.getD 80 ' ' = d := by
    have h0 : (cs.drop 80)[0]? = some d := by rw [hd]; rfl
    rw [List.getElem?_drop] at h0
    rw [List.getD_eq_getElem?_getD]
    simpa using congrArg (fun o => o.getD ' ') h0
  have hgetDi : ∀ i, i < 80 → (cs.take 80).getD i ' ' = cs.getD i ' ' := by
    intro i hi
    rw [List.getD_eq_getElem?_getD, List.getD_eq_getElem?_getD,
      List.getElem?_take, if_pos hi]
  have e0r : (Console.new 80 h).inner.cursor.row = 0 := rfl
  have e0c : (Console.new 80 h).inner.cursor.col = 0 := rfl
  have e0t : (Console.new 80 h).inner.temp = Cell.default := rfl
  have hwf0 : (Console.new 80 h).inner.buf.wf :=
    ConsoleInner.wf_new 80 h (by omega)
  obtain ⟨prow, pcol, ptemp, pwrap, pw, ph, pwf, pread, pframe⟩ :=
    ConsoleInner.input_run (cs.take 80) (Console.new 80 h).inner hwf0
      (by rw [e0r]; show 0 < h; omega)
      (by rw [e0c, htl]; show 0 + 80 ≤ 80; omega)
  set t80 := (cs.take 80).foldl ConsoleInner.input (Console.new 80 h).inner
    with ht80
  have hrowt : t80.cursor.row = 0 := prow.trans e0r
  have hcolt : t80.cursor.col = 80 := by
    rw [pcol, e0c, htl]
  have htempt : t80.temp = Cell.default := ptemp.trans e0t
  have hwt : t80.buf.width = 80 := pw.trans rfl
  have hht : t80.buf.height = h := ph.trans rfl
  have hwrapt : t80.auto_wrap = true := pwrap.trans rfl
  have hfold : cs.foldl ConsoleInner.input (Console.new 80 h).inner =
      ConsoleInner.input t80 d := by
    conv_lhs => rw [hsplit]
    rw [List.foldl_append]
    rfl
  have hkey := ConsoleInner.input_wrap t80 d (by rw [hcolt, hwt]) hwrapt
  have hlf := ConsoleInner.linefeed_not_last
    ({ t80 with cursor := { t80.cursor with col := 0 } })
    (by show t80.cursor.row < t80.buf.height - 1; rw [hrowt, hht]; omega)
  rw [hfold, hkey, hlf, ConsoleInner.putChar_eq]
  refine ⟨?_, ?_, ?_, ?_⟩
  · show t80.cursor.row + 1 = 1
    rw [hrowt]
  · rfl
  · show (t80.buf.write (t80.cursor.row + 1) 0
      { t80.temp with c := d }).read 1 0 = _
    rw [hrowt, show (0 : Nat) + 1 = 1 from rfl,
      TextBuffer.read_write_self _ 1 0 _ pwf (by rw [hht]; omega)
        (by rw [hwt]; omega),
      hgetD80, htempt]
  · intro i hi
    show (t80.buf.write (t80.cursor.row + 1) 0
      { t80.temp with c := d }).read 0 i = _
    rw [hrowt, show (0 : Nat) + 1 = 1 from rfl,
      TextBuffer.read_write_ne _ _ _ _ _ _ pwf (by rintro ⟨h1, h2⟩; omega)]
    have pri := pread i (by omega)
    rw [e0r, e0c, Nat.zero_add, e0t] at pri
    rw [pri, hgetDi i hi]

/-- C3 counterexample: on a 4-wide row holding abcd with the cursor at
column 0, `delete_chars 3` (clipped count 3) leaves column 1 holding its old
cell (the character b), not the pen-background fill the claim requires for
the vacated tail. -/
theorem delete_chars_vacated_tail_ce :
    ¬ ((((((Console.new 4 1).inner.input 'a').input 'b').input 'c').input
            'd').carriage_return.delete_chars 3).buf.read 0 1 =
        (((((Console.new 4 1).inner.input 'a').input 'b').input 'c').input
            'd').carriage_return.temp.just_bg := by
  decide

/-- C3 (amended): with the clipped count `cnt = min n (width - col - 1)`,
`delete_chars n` leaves the cursor, pen, dimensions, earlier columns and all
other rows unchanged, and on the cursor row: a cell at `p` receives the cell
`cnt` to its right when `cnt ≥ 1`, `col ≤ p` and `p + cnt < width`; it
becomes a pen-background cell when `col + cnt ≤ p < width` (in particular
the whole tail from the cursor on when `cnt = 0`); and it keeps its original
value otherwise — so cells in `[width - cnt, col + cnt)` are *not* cleared
and keep stale content when `2·cnt > width - col`. -/
theorem delete_chars_spec (s : ConsoleInner) (n : Nat) (hwf : s.buf.wf)
    (hrow : s.cursor.row < s.buf.height) (hcol : s.cursor.col < s.buf.width) :
    (s.delete_chars n).cursor = s.cursor ∧
      (s.delete_chars n).temp = s.temp ∧
      (s.delete_chars n).buf.width = s.buf.width ∧
      (s.delete_chars n).buf.height = s.buf.height ∧
      (∀ r c, r ≠ s.cursor.row →
        (s.delete_chars n).buf.read r c = s.buf.read r c) ∧
      (∀ p, (s.delete_chars n).buf.read s.cursor.row p =
        if 1 ≤ min n (s.buf.width - s.cursor.col - 1) ∧ s.cursor.col ≤ p ∧
            p + min n (s.buf.width - s.cursor.col - 1) < s.buf.width then
          s.buf.read s.cursor.row (p + min n (s.buf.width - s.cursor.col - 1))
        else if s.cursor.col + min n (s.buf.width - s.cursor.col - 1) ≤ p ∧
            p < s.buf.width then
          s.temp.just_bg
        else s.buf.read s.cursor.row p) := by
  have hck : s.cursor.col + min n (s.buf.width - s.cursor.col - 1) +
      (s.buf.width -
        (s.cursor.col + min n (s.buf.width - s.cursor.col - 1))) ≤
      s.buf.width := by omega
  obtain ⟨fwf, fw, fh, fframe, fread⟩ :=
    ConsoleInner.delete_fold s.buf s.cursor.row
      (min n (s.buf.width - s.cursor.col - 1))
      s.cursor.col s.temp.just_bg hwf hrow
      (s.buf.width - (s.cursor.col + min n (s.buf.width - s.cursor.col - 1)))
      hck
  have heq : s.cursor.col + min n (s.buf.width - s.cursor.col - 1) +
      (s.buf.width -
        (s.cursor.col + min n (s.buf.width - s.cursor.col - 1))) =
      s.buf.width := by omega
  rw [heq] at fread
  exact ⟨rfl, rfl, fw, fh, fframe, fread⟩

/-- Witness for the amended C3 theorem: abcd, cursor at column 0, delete 3 —
column 0 receives the old column 3 and column 1 keeps its old content. -/
theorem delete_chars_spec_witness :
    ((((((Console.new 4 1).inner.input 'a').input 'b').input 'c').input
          'd').carriage_return.delete_chars 3).buf.read 0 0 =
      (((((Console.new 4 1).inner.input 'a').input 'b').input 'c').input
          'd').carriage_return.buf.read 0 3 ∧
    ((((((Console.new 4 1).inner.input 'a').input 'b').input 'c').input
          'd').carriage_return.delete_chars 3).buf.read 0 1 =
      (((((Console.new 4 1).inner.input 'a').input 'b').input 'c').input
          'd').carriage_return.buf.read 0 1 := by
  have hx := delete_chars_spec
    (((((Console.new 4 1).inner.input 'a').input 'b').input 'c').input
        'd').carriage_return 3 (by decide) (by decide) (by decide)
  have hrow0 : (((((Console.new 4 1).inner.input 'a').input 'b').input
      'c').input 'd').carriage_return.cursor.row = 0 := by decide
  constructor
  · have h0 := hx.2.2.2.2.2 0
    rw [hrow0] at h0
    rw [h0]
    decide
  · have h1 := hx.2.2.2.2.2 1
    rw [hrow0] at h1
    rw [h1]
    decide

/-- C6: when the external per-cell draw call first fails at the dirty cell
`(ri, ci)` (succeeding on everything earlier in row-major order), `draw`
propagates the error, and afterwards exactly the cells strictly before
`(ri, ci)` in row-major order have their dirty flags cleared — every other
cell, the failing one included, is untouched, so a later `draw` call
redraws exactly the cells not yet drawn. -/
theorem draw_failure_frame {E : Type} (c : Console)
    (f : Nat → Nat → Cell → Except E Unit) (ri ci : Nat) (e : E)
    (hri : ri < c.inner.buf.buf.length)
    (hci : ci < (c.inner.buf.buf.getD ri []).length)
    (hdirty : ((c.inner.buf.buf.getD ri []).getD ci Cell.default).dirty = true)
    (hfail : f ri ci ((c.inner.buf.buf.getD ri []).getD ci Cell.default) =
      Except.error e)
    (hok : ∀ r cl cell, r < ri ∨ (r = ri ∧ cl < ci) →
      f r cl cell = Except.ok ()) :
    (c.draw f).2 = some e ∧
      (∀ r cl, r < c.inner.buf.buf.length →
        cl < (c.inner.buf.buf.getD r []).length →
        ((c.draw f).1.inner.buf.buf.getD r []).getD cl Cell.default =
          (if r < ri ∨ (r = ri ∧ cl < ci) then
            { (c.inner.buf.buf.getD r []).getD cl Cell.default with
                dirty := false }
          else (c.inner.buf.buf.getD r []).getD cl Cell.default)) := by
  have hmain := drawRowsFrom_fail f e ri c.inner.buf.buf 0 ci hri hci hdirty
    (by rw [Nat.zero_add]; exact hfail)
    (fun i j cell hi => hok (0 + i) j cell (Or.inl (by omega)))
    (fun j cell hj => hok (0 + ri) j cell (Or.inr ⟨by omega, hj⟩))
  constructor
  · show (drawRowsFrom f 0 c.inner.buf.buf).2 = some e
    rw [hmain]
  · intro r cl hr hcl
    have hcl2 : cl < (c.inner.buf.buf[r]).length := by
      rw [List.getD_eq_getElem?_getD, List.getElem?_eq_getElem hr] at hcl
      simpa using hcl
    show ((drawRowsFrom f 0 c.inner.buf.buf).1.getD r []).getD cl
        Cell.default = _
    rw [hmain]
    simp only [List.getD_eq_getElem?_getD]
    rw [List.getElem?_eq_getElem hri]
    simp only [Option.getD_some]
    have hAlen : ((c.inner.buf.buf.take ri).map
        (List.map (fun cell => ({ cell with dirty := false } : Cell)))).length =
        ri := by
      rw [List.length_map, List.length_take]
      omega
    rcases Nat.lt_trichotomy r ri with hcase | hcase | hcase
    · rw [List.getElem?_append, if_pos (by rw [hAlen]; omega),
        List.getElem?_map, List.getElem?_take, if_pos hcase,
        List.getElem?_eq_getElem hr]
      simp only [Option.map_some', Option.getD_some]
      rw [List.getElem?_map, List.getElem?_eq_getElem hcl2]
      simp only [Option.map_some', Option.getD_some]
      rw [if_pos (Or.inl hcase)]
    · subst hcase
      have hcir : ci < (c.inner.buf.buf[r]).length := by
        rw [List.getD_eq_getElem?_getD, List.getElem?_eq_getElem hr] at hci
        simpa using hci
      have hBlen : (((c.inner.buf.buf[r]).take ci).map
          (fun cell => ({ cell with dirty := false } : Cell))).length = ci := by
        rw [List.length_map, List.length_take]
        omega
      rw [List.getElem?_append, if_neg (by rw [hAlen]; omega),
        hAlen, Nat.sub_self, List.getElem?_cons_zero]
      simp only [Option.getD_some]
      by_cases hclci : cl < ci
      · rw [List.getElem?_append, if_pos (by rw [hBlen]; omega),
          List.getElem?_map, List.getElem?_take, if_pos hclci,
          List.getElem?_eq_getElem hcl2]
        simp only [Option.map_some', Option.getD_some]
        rw [if_pos (show _ ∨ _ from by simp [hclci])]
        rw [List.getElem?_eq_getElem hr]
        simp only [Option.getD_some]
        rw [List.getElem?_eq_getElem hcl2]
        simp only [Option.getD_some]
      · rw [List.getElem?_append, if_neg (by rw [hBlen]; omega),
          hBlen, List.getElem?_drop,
          show ci + (cl - ci) = cl by omega,
          List.getElem?_eq_getElem hcl2]
        simp only [Option.getD_some]
        rw [if_neg (by simp [hclci])]
        rw [List.getElem?_eq_getElem hr]
        simp only [Option.getD_some]
        rw [List.getElem?_eq_getElem hcl2]
        simp only [Option.getD_some]
    · rw [List.getElem?_append, if_neg (by rw [hAlen]; omega), hAlen,
        show r - ri = (r - ri - 1) + 1 by omega,
        List.getElem?_cons_succ, List.getElem?_drop,
        show ri + 1 + (r - ri - 1) = r by omega,
        List.getElem?_eq_getElem hr]
      simp only [Option.getD_some]
      rw [List.getElem?_eq_getElem hcl2]
      simp only [Option.getD_some]
      rw [if_neg (by omega)]

/-- Witness for the C6 theorem: a fresh 2×2 console (all cells dirty) and a
renderer that fails exactly at `(0, 1)` — the error comes back, cell
`(0, 0)` is cleaned, cell `(0, 1)` keeps its dirty flag. -/
theorem draw_failure_frame_witness :
    ((Console.new 2 2).draw (fun r cl _ =>
        if r = 0 ∧ cl = 1 then Except.error 42 else Except.ok ())).2 =
      some 42 ∧
      ((((Console.new 2 2).draw (fun r cl _ =>
          if r = 0 ∧ cl = 1 then Except.error 42 else Except.ok
            ())).1.inner.buf.buf.getD 0 []).getD 0 Cell.default =
        { Cell.default with dirty := false }) ∧
      ((((Console.new 2 2).draw (fun r cl _ =>
          if r = 0 ∧ cl = 1 then Except.error 42 else Except.ok
            ())).1.inner.buf.buf.getD 0 []).getD 1 Cell.default =
        Cell.default) := by
  have hx := draw_failure_frame (Console.new 2 2)
    (fun r cl _ => if r = 0 ∧ cl = 1 then Except.error 42 else Except.ok ())
    0 1 42 (by decide) (by decide) (by decide) rfl
    (fun r cl cell h => by
      show (if r = 0 ∧ cl = 1 then Except.error 42 else Except.ok ()) =
        Except.ok ()
      rw [if_neg (by omega)])
  refine ⟨hx.1, ?_, ?_⟩
  · have h0 := hx.2 0 0 (by decide) (by decide)
    rw [h0]
    decide
  · have h1 := hx.2 0 1 (by decide) (by decide)
    rw [h1]
    decide

/-- Witness for the C5 theorem at height 2 with 81 copies of a character. -/
theorem auto_wrap_81_witness :
    ((List.replicate 81 'x').foldl ConsoleInner.input
        (Console.new 80 2).inner).cursor.row = 1 ∧
      ((List.replicate 81 'x').foldl ConsoleInner.input
        (Console.new 80 2).inner).cursor.col = 1 :=
  ⟨(auto_wrap_81 2 (by decide) (List.replicate 81 'x') (by simp)).1,
    (auto_wrap_81 2 (by decide) (List.replicate 81 'x') (by simp)).2.1⟩

/-- C2 counterexample: the strict cursor bounds claimed by the spec fail.
On a 1×1 console, the single operation `goto 5 5` leaves the cursor at
`(1, 1)` — `goto` clamps the row to `height` and the column to `width`, not
to `height - 1` / `width - 1` — so neither `row < height` nor `col < width`
holds. -/
theorem cursor_bounds_strict_ce :
    ¬ ((applyOps (Console.new 1 1).inner [Op.goto 5 5]).cursor.row <
          (Console.new 1 1).rows ∧
        (applyOps (Console.new 1 1).inner [Op.goto 5 5]).cursor.col <
          (Console.new 1 1).columns) := by
  decide

/-- C2 (amended): after any sequence of interpreter operations on a console
of width ≥ 1 and height ≥ 1, starting from the default cursor, the cursor
satisfies `row ≤ height` and `col ≤ width` (inclusive bounds: `goto` can park
the cursor at exactly `row = height` or `col = width`, and `input` at
`col = width`). -/
theorem cursor_bounds_after_ops (w h : Nat) (hw : 1 ≤ w) (hh : 1 ≤ h)
    (ops : List Op) :
    (applyOps (Console.new w h).inner ops).cursor.row ≤ h ∧
      (applyOps (Console.new w h).inner ops).cursor.col ≤ w := by
  have base : ConsoleInner.CursorInv w h (Console.new w h).inner :=
    ⟨rfl, rfl, Nat.zero_le h, Nat.zero_le w, Nat.zero_le h, Nat.zero_le w⟩
  have hinv := ConsoleInner.cursorInv_applyOps w h hw hh _ ops base
  exact ⟨hinv.2.2.1, hinv.2.2.2.1⟩

/-- Witness for the amended C2 theorem at a concrete console and op list. -/
theorem cursor_bounds_after_ops_witness :
    (applyOps (Console.new 2 3).inner
        [Op.goto 9 9, Op.input 'x', Op.linefeed]).cursor.row ≤ 3 ∧
      (applyOps (Console.new 2 3).inner
        [Op.goto 9 9, Op.input 'x', Op.linefeed]).cursor.col ≤ 2 :=
  cursor_bounds_after_ops 2 3 (by decide) (by decide)
    [Op.goto 9 9, Op.input 'x', Op.linefeed]

/-- C4 counterexample: constructing a console with zero width and height is
not reported as an error.  `Console::new 0 0` returns normally and hands back
a usable console — its queries answer, and operations such as `goto` still
run on it — contradicting the claim that the construction call fails. -/
theorem console_new_zero_ce :
    (Console.new 0 0).rows = 0 ∧ (Console.new 0 0).columns = 0 ∧
      (Console.new 0 0).get_cursor_position = (0, 0) ∧
      ((Console.new 0 0).inner.goto 3 4).cursor = ⟨0, 0⟩ := by
  decide

/-- C4 (amended): `Console::new` performs no validation at all: for every
width and height — zero included — it succeeds and returns a console with
exactly the requested dimensions, the default cursor, auto-wrap on and an
empty report queue.  Zero-dimension failures surface only in later
operations, not at construction time. -/
theorem console_new_no_validation (w h : Nat) :
    (Console.new w h).rows = h ∧ (Console.new w h).columns = w ∧
      (Console.new w h).get_cursor_position = (0, 0) ∧
      (Console.new w h).inner.auto_wrap = true ∧
      (Console.new w h).inner.report = [] :=
  ⟨rfl, rfl, rfl, rfl, rfl⟩

/-- C7: with the cursor at zero-indexed `(3, 5)`, `device_status 6` appends
exactly the bytes of `ESC [ 4 ; 6 R` (the 1-indexed cursor position) to the
report queue, and successive `pop_report` calls return those bytes in FIFO
order, then `none` once the queue is empty. -/
theorem device_status_cpr_fifo :
    (((Console.new 80 25).inner.goto 3 5).device_status 6).report =
        [27, 91, 52, 59, 54, 82] ∧
      Console.popAll
        { inner := ((Console.new 80 25).inner.goto 3 5).device_status 6 } 7 =
        [some 27, some 91, some 52, some 59, some 54, some 82, none] := by
  decide

/-- C8: from any starting pen state, applying `terminal_attribute` with
Bold, then Foreground Red, then Reset leaves the pen with exactly the
default cell's foreground, background and flags (Reset overwrites the whole
pen template with the default cell). -/
theorem sgr_reset_restores_default_pen (s : ConsoleInner) :
    ((((s.terminal_attribute Attr.Bold).terminal_attribute
          (Attr.Foreground (Color.Named NamedColor.Red))).terminal_attribute
          Attr.Reset)).temp.fg = Cell.default.fg ∧
      ((((s.terminal_attribute Attr.Bold).terminal_attribute
          (Attr.Foreground (Color.Named NamedColor.Red))).terminal_attribute
          Attr.Reset)).temp.bg = Cell.default.bg ∧
      ((((s.terminal_attribute Attr.Bold).terminal_attribute
          (Attr.Foreground (Color.Named NamedColor.Red))).terminal_attribute
          Attr.Reset)).temp.flags = Cell.default.flags :=
  ⟨rfl, rfl, rfl⟩

/-- C9: `new_line fill` fills every column of exactly the physical row at the
current row offset, advances the offset by one modulo `height`, and leaves
every other physical row untouched; since `read` indexes physical rows
without the offset, every read outside that one row is unchanged. -/
theorem new_line_frame_effect (tb : TextBuffer) (cell : Cell) (h : tb.wf) :
    (tb.new_line cell).height = tb.height ∧
      (tb.new_line cell).width = tb.width ∧
      (tb.new_line cell).row_offset = (tb.row_offset + 1) % tb.height ∧
      (∀ c, c < tb.width → (tb.new_line cell).read tb.row_offset c = cell) ∧
      (∀ r c, r ≠ tb.row_offset → (tb.new_line cell).read r c = tb.read r c) := by
  refine ⟨rfl, rfl, rfl, ?_, ?_⟩
  · intro c hc
    rw [TextBuffer.read_new_line tb cell _ _ h, if_pos ⟨rfl, hc⟩]
  · intro r c hrne
    rw [TextBuffer.read_new_line tb cell _ _ h, if_neg (fun hand => hrne hand.1)]

/-- Witness for the C9 theorem on a fresh 2×2 buffer. -/
theorem new_line_frame_effect_witness :
    (TextBuffer.new 2 2).wf ∧
      ((TextBuffer.new 2 2).new_line Cell.default).read 0 0 = Cell.default :=
  ⟨by decide,
    (new_line_frame_effect (TextBuffer.new 2 2) Cell.default
        (by decide)).2.2.2.1 0 (by decide)⟩

/-- C10: `goto r c` with `r ≥ height` parks the cursor row at exactly
`height`; a following `input` with in-range column issues a buffer write at
row index `height`, which the buffer discards, so no cell changes while the
cursor column still advances by one. -/
theorem goto_row_overflow_discards_input (s : ConsoleInner) (r c : Nat)
    (ch : Char) (hr : s.buf.height ≤ r) (hc : c < s.buf.width) :
    (s.goto r c).cursor.row = s.buf.height ∧
      ((s.goto r c).input ch).buf = s.buf ∧
      ((s.goto r c).input ch).cursor.col = (s.goto r c).cursor.col + 1 := by
  refine ⟨?_, ?_, ?_⟩
  · simp only [ConsoleInner.goto]
    exact Nat.min_eq_right hr
  · simp only [ConsoleInner.goto, ConsoleInner.input, ConsoleInner.putChar]
    rw [if_neg (by omega : ¬ min c s.buf.width ≥ s.buf.width)]
    exact TextBuffer.write_oob s.buf _ _ _ (Or.inl (by omega))
  · simp only [ConsoleInner.goto, ConsoleInner.input, ConsoleInner.putChar]
    rw [if_neg (by omega : ¬ min c s.buf.width ≥ s.buf.width)]

/-- Witness for the C10 theorem: a 3×2 console, `goto 7 1`, then input. -/
theorem goto_row_overflow_discards_input_witness :
    ((Console.new 3 2).inner.goto 7 1).cursor.row =
        (Console.new 3 2).inner.buf.height ∧
      (((Console.new 3 2).inner.goto 7 1).input 'Z').buf =
        (Console.new 3 2).inner.buf :=
  ⟨(goto_row_overflow_discards_input (Console.new 3 2).inner 7 1 'Z'
      (by decide) (by decide)).1,
    (goto_row_overflow_discards_input (Console.new 3 2).inner 7 1 'Z'
      (by decide) (by decide)).2.1⟩

/-- C1 counterexample: on a 1×1 console whose pen foreground was set to Red,
the cursor is on the last row; after `linefeed` the new last row is filled
with the full pen template (foreground Red included), not with a
background-only blank cell as the claim states. -/
theorem linefeed_last_row_ce :
    ¬ (((Console.new 1 1).inner.terminal_attribute
          (Attr.Foreground (Color.Named NamedColor.Red))).linefeed.buf.read 0 0 =
        ((Console.new 1 1).inner.terminal_attribute
          (Attr.Foreground (Color.Named NamedColor.Red))).temp.just_bg) := by
  decide

/-- C1 (amended): `linefeed` with the cursor on the last row keeps the
height, resets the column, keeps the row, and scrolls the buffer: the
physical row at the current row offset is overwritten with the full pen
template cell (not a background-only cell), the offset advances modulo
`height`, and all other physical rows are unchanged.  Reads at row
`height - 1` therefore change only when the offset was `height - 1`. -/
theorem linefeed_last_row_scroll (s : ConsoleInner) (h : s.buf.wf)
    (hrow : s.cursor.row = s.buf.height - 1) :
    s.linefeed.buf.height = s.buf.height ∧
      s.linefeed.buf.width = s.buf.width ∧
      s.linefeed.cursor = ⟨s.cursor.row, 0⟩ ∧
      s.linefeed.buf.row_offset = (s.buf.row_offset + 1) % s.buf.height ∧
      (∀ c, c < s.buf.width → s.linefeed.buf.read s.buf.row_offset c = s.temp) ∧
      (∀ r c, r ≠ s.buf.row_offset →
        s.linefeed.buf.read r c = s.buf.read r c) := by
  have hguard : ¬ (s.cursor.row < s.buf.height - 1) := by omega
  simp only [ConsoleInner.linefeed, if_neg hguard]
  refine ⟨by trivial, by trivial, by trivial, by trivial, ?_, ?_⟩
  · intro c hc
    rw [TextBuffer.read_new_line s.buf s.temp _ _ h, if_pos ⟨rfl, hc⟩]
  · intro r c hrne
    rw [TextBuffer.read_new_line s.buf s.temp _ _ h,
      if_neg (fun hand => hrne hand.1)]

/-- Witness for the amended C1 theorem: 1×2 console, cursor moved to the
last row, default pen. -/
theorem linefeed_last_row_scroll_witness :
    ((Console.new 1 2).inner.goto 1 0).buf.wf ∧
      (((Console.new 1 2).inner.goto 1 0).linefeed).buf.read 0 0 =
        ((Console.new 1 2).inner.goto 1 0).temp :=
  ⟨by decide,
    (linefeed_last_row_scroll ((Console.new 1 2).inner.goto 1 0)
        (by decide) (by decide)).2.2.2.2.1 0 (by decide)⟩

end EmbeddedTemu
